import Mathlib

/-!
Shallow embedding of the novelist bot's session/pagination engine
(`src/cogs/novel.py`) and proofs about its specified properties.

Python strings are modelled as `List Char` (sequences of Unicode code
points, matching CPython's `str`).  The database row for a novel is the
`Session` structure; the process-wide `in_page : set[str]` lock is a
`List (List Char)` with set semantics; the external Gemini call is a
parameter returning `GenOut`.
-/

namespace Novelist

/-- Python `needle in (c :: rest)` begins by testing whether `needle` is an
initial segment; helper for `occursIn`. -/
def startsList : List Char → List Char → Bool
  | [], _ => true
  | _ :: _, [] => false
  | a :: xs, b :: ys => a == b && startsList xs ys

/-- Python substring containment `needle in hay` (for `"(終わり" in text`,
novel.py line 127, and `"(終わり)" in text`, line 235). -/
def occursIn (needle : List Char) : List Char → Bool
  | [] => needle.isEmpty
  | b :: bs => startsList needle (b :: bs) || occursIn needle bs

/-- Python `str.rstrip(chars)`: remove the maximal trailing run of
characters that are members of `chars`. -/
def rstrip (chars : List Char) (s : List Char) : List Char :=
  (s.reverse.dropWhile (fun c => chars.contains c)).reverse

/-- The character set argument of the `rstrip` call in `trim_page_text`
(novel.py line 45): the characters of `"\n(次のページ)"`. -/
def RSTRIP_CHARS : List Char := "\n(次のページ)".toList

/-- novel.py line 44-45: `text.rstrip("\n(次のページ)")`. -/
def trim_page_text (text : List Char) : List Char :=
  rstrip RSTRIP_CHARS text

/-- novel.py line 40-41:
`[s[i : i + chunk_size] for i in range(0, len(s), chunk_size)]`.
`range(0, len s, m)` enumerates `i = k * m` for
`k < ⌈len s / m⌉`, and `s[i : i + m]` is `(s.drop i).take m`. -/
def split_by_chunk (s : List Char) (chunk_size : Nat) : List (List Char) :=
  (List.range ((s.length + chunk_size - 1) / chunk_size)).map
    (fun k => (s.drop (k * chunk_size)).take chunk_size)

/-- The continuation prompt `"次のページ"` (novel.py lines 111, 123). -/
def CONT : List Char := "次のページ".toList

/-- The completion marker substring checked by `on_interaction`
(novel.py line 127): `"(終わり"`, with no closing parenthesis. -/
def PART_MARK : List Char := "(終わり".toList

/-- The completion marker substring checked by `new_novel`
(novel.py line 235): `"(終わり)"`. -/
def FULL_MARK : List Char := "(終わり)".toList

/-- The full continuation token `"(次のページ)"`. -/
def CONT_FULL : List Char := "(次のページ)".toList

/-- A `novels` table row (novel.py lines 86-93): `data` is the ordered
page list, `story` the premise, `finished` the terminal flag. -/
structure Session where
  data : List (List Char)
  story : List Char
  finished : Bool
deriving DecidableEq, Repr

/-- Outcome of one `chat.send_message` call: the returned text, or an
exception propagating out of the await. -/
inductive GenOut where
  | ok (text : List Char)
  | raise
deriving DecidableEq

/-- What the handler sends back for one component interaction. -/
inductive PageResult where
  /-- "現在生成中です..." (novel.py line 97). -/
  | busy
  /-- "これ以上ページはありません。" (novel.py line 142). -/
  | outOfRange
  /-- An uncaught exception escaped the handler: no response is produced. -/
  | raised
  /-- The embed parameters: display chunks, 1-based current page number,
  displayed total, finished flag (novel.py lines 147-169). -/
  | served (chunks : List (List Char)) (current : Int) (displayTotal : Int)
      (finished : Bool)
deriving DecidableEq

/-- The observable effect of one `on_interaction` run: the persisted row
afterwards, the lock set afterwards, how many generator calls and
database `UPDATE`s ran, and the response. -/
structure StepOut where
  session : Session
  locks : List (List Char)
  genCalls : Nat
  dbWrites : Nat
  result : PageResult
deriving DecidableEq

/-- novel.py lines 110-121: the `enumerate(history)` loop that replays the
conversation for the generator; turn `0` pairs the premise (`story`) with
the first page, every later turn pairs `"次のページ"` with that page. -/
def buildContext (story : List Char) (history : List (List Char)) :
    List (List Char × List Char) :=
  history.enum.map (fun p => (if p.1 = 0 then story else CONT, p.2))

/-- Python `history[page]`: negative indices count from the end
(`history[i]` is `history[len + i]` for `i < 0`); out of bounds raises
`IndexError`. -/
def pyGet (l : List (List Char)) (i : Int) : Option (List Char) :=
  let j : Int := if i < 0 then (l.length : Int) + i else i
  if 0 ≤ j then l[j.toNat]? else none

/-- novel.py lines 147-169: look up `history[page]`, chunk it, and compute
the footer numbers.  `display_total` is `current_page_number` when
`not finished and page >= total_pages`, else `total_pages`. -/
def renderPage (history : List (List Char)) (finished : Bool) (page : Int) :
    PageResult :=
  match pyGet history page with
  | none => .raised
  | some text =>
    let chunks := split_by_chunk text 2048
    let total_pages := history.length
    let current_page_number := page + 1
    let display_total : Int :=
      if finished = false ∧ (total_pages : Int) ≤ page then current_page_number
      else (total_pages : Int)
    .served chunks current_page_number display_total finished

/-- novel.py lines 81-84: apply the button direction to the page carried
in the `custom_id`. -/
def applyDirection (direction : List Char) (page : Int) : Int :=
  if direction = "prev".toList then page - 1
  else if direction = "next".toList then page + 1
  else page

/-- novel.py lines 91-169, the handler body after the row fetch succeeds.
`locks` is `self.in_page`; `gen` is the Gemini chat built on
`buildContext story history` (lines 102-123); `dbOk` says whether the
`UPDATE` at lines 132-137 succeeds or raises.  The generation branch
(lines 95-139) appends the trimmed text unconditionally (line 125) and
removes the lock only after a successful `UPDATE` (line 139): an
exception from the generator or the database leaves `novel_id` in the
set and aborts the handler with nothing sent. -/
def on_interaction (locks : List (List Char)) (novel_id : List Char)
    (s : Session) (page : Int)
    (gen : List (List Char × List Char) → GenOut) (dbOk : Bool) : StepOut :=
  let history := s.data
  let finished := s.finished
  let story := s.story
  if page = (history.length : Int) ∧ finished = false then
    if locks.contains novel_id then
      ⟨s, locks, 0, 0, .busy⟩
    else
      let locks1 := novel_id :: locks
      match gen (buildContext story history) with
      | .raise => ⟨s, locks1, 1, 0, .raised⟩
      | .ok raw =>
        let text := trim_page_text raw
        let history1 := history ++ [text]
        let finished1 := occursIn PART_MARK text
        if dbOk then
          ⟨⟨history1, story, finished1⟩, locks1.erase novel_id, 1, 1,
            renderPage history1 finished1 page⟩
        else
          ⟨s, locks1, 1, 0, .raised⟩
  else if (history.length : Int) ≤ page then
    ⟨s, locks, 0, 0, .outOfRange⟩
  else
    ⟨s, locks, 0, 0, renderPage history finished page⟩

/-- novel.py lines 203-236, the persisted part of `/new`: trim the first
generated page, store it as the single element of `data`, and set
`finished` to `"(終わり)" in text` — evaluated on the already-trimmed
text. -/
def new_novel (story : List Char) (raw : List Char) : Session :=
  let text := trim_page_text raw
  let data := [text]
  ⟨data, story, occursIn FULL_MARK text⟩

/-- Iterate `on_interaction` over a list of requests
(page, generator, db outcome), threading session and lock state and
summing generator invocations. -/
def runReqs (novel_id : List Char) :
    Session → List (List Char) →
    List (Int × (List (List Char × List Char) → GenOut) × Bool) →
    Session × List (List Char) × Nat
  | s, locks, [] => (s, locks, 0)
  | s, locks, (p, g, d) :: rest =>
    let o := on_interaction locks novel_id s p g d
    let r := runReqs novel_id o.session o.locks rest
    (r.1, r.2.1, o.genCalls + r.2.2)

/-! ### Chunking lemmas (for the PageChunker claims) -/

lemma chunk_nil (m : Nat) : split_by_chunk [] m = [] := by
  unfold split_by_chunk
  have h : (List.length ([] : List Char) + m - 1) / m = 0 := by
    cases m with
    | zero => rfl
    | succ m' => exact Nat.div_eq_of_lt (by simp)
  rw [h]
  rfl

lemma chunk_cons {s : List Char} {m : Nat} (hm : 1 ≤ m) (hs : s ≠ []) :
    split_by_chunk s m = s.take m :: split_by_chunk (s.drop m) m := by
  have hk : 1 ≤ s.length := List.length_pos.mpr hs
  unfold split_by_chunk
  have h1 : (s.length + m - 1) / m = (s.length - 1) / m + 1 := by
    have e : s.length + m - 1 = (s.length - 1) + m := by omega
    rw [e, Nat.add_div_right _ (by omega)]
  have h2 : ((s.drop m).length + m - 1) / m = (s.length - 1) / m := by
    rw [List.length_drop]
    rcases le_or_lt m s.length with h | h
    · congr 1
      omega
    · have e1 : s.length - m = 0 := by omega
      rw [e1, Nat.div_eq_of_lt (by omega), Nat.div_eq_of_lt (by omega)]
  rw [h1, h2, List.range_succ_eq_map, List.map_cons, List.map_map]
  refine congrArg₂ _ (by simp) ?_
  apply List.map_congr_left
  intro i _
  simp only [Function.comp_apply, List.drop_drop]
  congr 2
  rw [Nat.succ_mul]
  omega

lemma chunk_flatten {m : Nat} (hm : 1 ≤ m) (s : List Char) :
    (split_by_chunk s m).flatten = s := by
  generalize hn : s.length = n
  induction n using Nat.strong_induction_on generalizing s with
  | _ n ih =>
    rcases eq_or_ne s [] with rfl | hs
    · rw [chunk_nil]
      rfl
    · have hk : 1 ≤ s.length := List.length_pos.mpr hs
      rw [chunk_cons hm hs, List.flatten_cons,
        ih (s.drop m).length (by rw [List.length_drop]; omega) (s.drop m) rfl,
        List.take_append_drop]

lemma chunk_dropLast {m : Nat} (hm : 1 ≤ m) (s : List Char) :
    ∀ c ∈ (split_by_chunk s m).dropLast, c.length = m := by
  generalize hn : s.length = n
  induction n using Nat.strong_induction_on generalizing s with
  | _ n ih =>
    rcases eq_or_ne s [] with rfl | hs
    · rw [chunk_nil]
      intro c hc
      simp at hc
    · have hk : 1 ≤ s.length := List.length_pos.mpr hs
      rw [chunk_cons hm hs]
      rcases le_or_lt s.length m with h | h
      · have hdrop : s.drop m = [] := List.drop_eq_nil_of_le h
        rw [hdrop, chunk_nil]
        intro c hc
        simp at hc
      · have hdrop : s.drop m ≠ [] := by
          intro e
          have := List.length_drop m s
          rw [e] at this
          simp at this
          omega
        have hrest : split_by_chunk (s.drop m) m ≠ [] := by
          rw [chunk_cons hm hdrop]
          exact List.cons_ne_nil _ _
        rw [List.dropLast_cons_of_ne_nil hrest]
        intro c hc
        rcases List.mem_cons.mp hc with rfl | hc'
        · rw [List.length_take]
          omega
        · exact ih (s.drop m).length (by rw [List.length_drop]; omega)
            (s.drop m) rfl c hc'

/-! ### Substring containment lemmas -/

lemma startsList_iff (n : List Char) :
    ∀ h : List Char, startsList n h = true ↔ ∃ v, h = n ++ v := by
  induction n with
  | nil =>
    intro h
    simp [startsList]
  | cons a xs ih =>
    intro h
    cases h with
    | nil =>
      simp [startsList]
    | cons b ys =>
      simp only [startsList, Bool.and_eq_true, beq_iff_eq, ih ys,
        List.cons_append, List.cons.injEq]
      constructor
      · rintro ⟨rfl, v, rfl⟩
        exact ⟨v, rfl, rfl⟩
      · rintro ⟨v, rfl, rfl⟩
        exact ⟨rfl, v, rfl⟩

lemma occursIn_iff (n : List Char) :
    ∀ h : List Char, occursIn n h = true ↔ ∃ u v, h = u ++ n ++ v := by
  intro h
  induction h with
  | nil =>
    simp only [occursIn, List.isEmpty_iff]
    constructor
    · rintro rfl
      exact ⟨[], [], rfl⟩
    · rintro ⟨u, v, huv⟩
      rcases List.append_eq_nil.mp (huv.symm) with ⟨h1, h2⟩
      exact (List.append_eq_nil.mp h1).2
  | cons b bs ih =>
    simp only [occursIn, Bool.or_eq_true, startsList_iff, ih]
    constructor
    · rintro (⟨v, hv⟩ | ⟨u, v, huv⟩)
      · exact ⟨[], v, by simp [hv]⟩
      · exact ⟨b :: u, v, by simp [huv]⟩
    · rintro ⟨u, v, huv⟩
      cases u with
      | nil =>
        left
        exact ⟨v, by simpa using huv⟩
      | cons b' u' =>
        right
        simp only [List.cons_append, List.cons.injEq] at huv
        exact ⟨u', v, huv.2⟩

/-! ### rstrip lemmas -/

lemma dropWhile_append_all {p : Char → Bool} :
    ∀ {l1 l2 : List Char}, (∀ c ∈ l1, p c = true) →
      List.dropWhile p (l1 ++ l2) = List.dropWhile p l2 := by
  intro l1
  induction l1 with
  | nil =>
    intro l2 _
    rfl
  | cons a l ih =>
    intro l2 hall
    rw [List.cons_append,
      List.dropWhile_cons_of_pos (hall a (List.mem_cons_self a l))]
    exact ih fun c hc => hall c (List.mem_cons_of_mem a hc)

/-- The maximal trailing run removed by `rstrip`. -/
def rstripDropped (chars t : List Char) : List Char :=
  (t.reverse.takeWhile (fun c => chars.contains c)).reverse

lemma rstrip_append_dropped (chars t : List Char) :
    rstrip chars t ++ rstripDropped chars t = t := by
  unfold rstrip rstripDropped
  rw [← List.reverse_append, List.takeWhile_append_dropWhile, List.reverse_reverse]

lemma rstripDropped_mem {chars t : List Char} :
    ∀ c ∈ rstripDropped chars t, chars.contains c = true := by
  intro c hc
  rw [rstripDropped, List.mem_reverse] at hc
  exact List.mem_takeWhile_imp hc

lemma rstrip_last_not_mem {chars t : List Char} {c : Char}
    (hc : (rstrip chars t).getLast? = some c) : chars.contains c = false := by
  rw [rstrip, List.getLast?_reverse] at hc
  have h := List.head?_dropWhile_not (fun c => chars.contains c) t.reverse
  rw [hc] at h
  exact h

lemma rstrip_append_run {chars t u : List Char}
    (hu : ∀ c ∈ u, chars.contains c = true) :
    rstrip chars (t ++ u) = rstrip chars t := by
  unfold rstrip
  rw [List.reverse_append, dropWhile_append_all]
  intro c hc
  exact hu c (List.mem_reverse.mp hc)

/-! ### Engine path lemmas -/

lemma frontier_ok {s : Session} {locks : List (List Char)} {novel_id : List Char}
    {gen : List (List Char × List Char) → GenOut} {raw : List Char}
    (hfin : s.finished = false) (hlock : locks.contains novel_id = false)
    (hgen : gen (buildContext s.story s.data) = GenOut.ok raw) :
    on_interaction locks novel_id s (s.data.length : Int) gen true =
      ⟨⟨s.data ++ [trim_page_text raw], s.story,
          occursIn PART_MARK (trim_page_text raw)⟩,
        (novel_id :: locks).erase novel_id, 1, 1,
        renderPage (s.data ++ [trim_page_text raw])
          (occursIn PART_MARK (trim_page_text raw)) (s.data.length : Int)⟩ := by
  unfold on_interaction
  rw [if_pos ⟨rfl, hfin⟩, if_neg (by rw [hlock]; simp), hgen]
  rfl

lemma frontier_busy {s : Session} {locks : List (List Char)} {novel_id : List Char}
    {page : Int} {gen : List (List Char × List Char) → GenOut} {dbOk : Bool}
    (hpage : page = (s.data.length : Int)) (hfin : s.finished = false)
    (hlock : locks.contains novel_id = true) :
    on_interaction locks novel_id s page gen dbOk =
      ⟨s, locks, 0, 0, .busy⟩ := by
  unfold on_interaction
  rw [if_pos ⟨hpage, hfin⟩, if_pos hlock]

lemma step_finished {s : Session} (hf : s.finished = true)
    (locks : List (List Char)) (novel_id : List Char) (page : Int)
    (gen : List (List Char × List Char) → GenOut) (dbOk : Bool) :
    on_interaction locks novel_id s page gen dbOk =
      ⟨s, locks, 0, 0,
        if (s.data.length : Int) ≤ page then .outOfRange
        else renderPage s.data s.finished page⟩ := by
  unfold on_interaction
  rw [if_neg (by simp [hf])]
  split_ifs with h
  · rfl
  · rfl

lemma renderPage_concat (h : List (List Char)) (t : List Char) (f : Bool) :
    renderPage (h ++ [t]) f (h.length : Int) =
      .served (split_by_chunk t 2048) ((h.length : Int) + 1)
        ((h.length : Int) + 1) f := by
  unfold renderPage pyGet
  have hnn : ¬ ((h.length : Int) < 0) := by omega
  rw [if_neg hnn]
  simp only [Int.toNat_natCast]
  rw [if_pos (by omega), List.getElem?_concat_length]
  have hlen : (((h ++ [t]).length : Nat) : Int) = (h.length : Int) + 1 := by
    rw [List.length_append, List.length_singleton]
    push_cast
    ring
  have hcond : ¬ (f = false ∧ (((h ++ [t]).length : Nat) : Int) ≤ (h.length : Int)) := by
    rintro ⟨_, hle⟩
    rw [hlen] at hle
    omega
  rw [if_neg hcond, hlen]

lemma renderPage_neg {h : List (List Char)} {f : Bool} {k : Nat}
    (hk1 : 1 ≤ k) (hk2 : k ≤ h.length) :
    renderPage h f (-(k : Int)) =
      .served (split_by_chunk (h.getD (h.length - k) []) 2048)
        (-(k : Int) + 1) ((h.length : Int)) f := by
  unfold renderPage pyGet
  have hneg : (-(k : Int)) < 0 := by omega
  rw [if_pos hneg]
  have hj : ((h.length : Int) + -(k : Int)) = ((h.length - k : Nat) : Int) := by
    omega
  rw [hj]
  simp only [Int.toNat_natCast]
  rw [if_pos (by omega)]
  have hlt : h.length - k < h.length := by omega
  rw [List.getElem?_eq_getElem hlt, List.getD_eq_getElem h [] hlt]
  have hcond : ¬ (f = false ∧ ((h.length : Nat) : Int) ≤ -(k : Int)) := by
    rintro ⟨_, hle⟩
    omega
  rw [if_neg hcond]

/-- Reference semantics following the spec claim's words for
`trim_page_text`: the text with any trailing instance of the fixed
continuation-prompt token or of the completion marker stripped from the
end, as substring removal (fuelled to guarantee termination; the fuel
`t.length` always suffices since each removal shortens the text). -/
def stripTokensFuel : Nat → List Char → List Char
  | 0, t => t
  | n + 1, t =>
    if CONT_FULL.isSuffixOf t then
      stripTokensFuel n (t.take (t.length - CONT_FULL.length))
    else if FULL_MARK.isSuffixOf t then
      stripTokensFuel n (t.take (t.length - FULL_MARK.length))
    else t

/-- Reference semantics following the spec claim's words: remove every
trailing instance of `"(次のページ)"` or `"(終わり)"`. -/
def stripTokens (t : List Char) : List Char := stripTokensFuel t.length t

lemma rstrip_append_cons_not_mem {chars t u : List Char} {c : Char}
    (hc : chars.contains c = false) (hu : ∀ d ∈ u, chars.contains d = true) :
    rstrip chars (t ++ c :: u) = t ++ [c] := by
  unfold rstrip
  rw [List.reverse_append, List.reverse_cons, List.append_assoc,
    dropWhile_append_all (fun d hd => hu d (List.mem_reverse.mp hd)),
    List.singleton_append, List.dropWhile_cons_of_neg (by rw [hc]; simp),
    List.reverse_cons, List.reverse_reverse]

lemma trim_append_full_mark (t : List Char) :
    trim_page_text (t ++ FULL_MARK) = t ++ PART_MARK := by
  have hsplit : FULL_MARK = "(終わ".toList ++ 'り' :: [')'] := by decide
  have hpart : PART_MARK = "(終わ".toList ++ ['り'] := by decide
  rw [hsplit, hpart, ← List.append_assoc, trim_page_text,
    rstrip_append_cons_not_mem (by decide) (by decide), List.append_assoc]

lemma enumFrom_map_cont (story : List Char) :
    ∀ (rest : List (List Char)) (i : Nat), 1 ≤ i →
      (List.enumFrom i rest).map
          (fun p => (if p.1 = 0 then story else CONT, p.2))
        = rest.map (fun t => (CONT, t)) := by
  intro rest
  induction rest with
  | nil =>
    intro i _
    rfl
  | cons t ts ih =>
    intro i hi
    simp only [List.enumFrom_cons, List.map_cons]
    rw [if_neg (by omega), ih (i + 1) (by omega)]

/-! ### Claim theorems -/

/-- C1, counterexample to the claim as stated: on a frontier request whose
generator response carries the completion marker, `on_interaction` sets
`finished` but still appends the (trimmed) terminal response, so the
stored page list grows from 1 to 2 — it is not left unchanged and the
terminal response is not discarded (novel.py line 125 appends
unconditionally). -/
theorem C1_counterexample :
    (on_interaction [] "ab".toList ⟨["p".toList], "s".toList, false⟩ 1
        (fun _ => GenOut.ok "x(終わり)".toList) true).session.finished = true ∧
    (on_interaction [] "ab".toList ⟨["p".toList], "s".toList, false⟩ 1
        (fun _ => GenOut.ok "x(終わり)".toList) true).session.data.length = 2 := by
  decide

/-- C1, amended: when a frontier generation's result is detected as
finished, `on_interaction` sets `finished = true` and appends the trimmed
terminal response as a page: the stored pages sequence grows by exactly
one (the terminal marker response is stored, not discarded). -/
theorem C1_terminal_response_is_appended {s : Session}
    {locks : List (List Char)} {novel_id : List Char}
    {gen : List (List Char × List Char) → GenOut} {raw : List Char}
    (hfin : s.finished = false) (hlock : locks.contains novel_id = false)
    (hgen : gen (buildContext s.story s.data) = GenOut.ok raw)
    (hmark : occursIn PART_MARK (trim_page_text raw) = true) :
    (on_interaction locks novel_id s (s.data.length : Int) gen
        true).session.finished = true ∧
    (on_interaction locks novel_id s (s.data.length : Int) gen
        true).session.data = s.data ++ [trim_page_text raw] ∧
    (on_interaction locks novel_id s (s.data.length : Int) gen
        true).session.data.length = s.data.length + 1 := by
  rw [frontier_ok hfin hlock hgen]
  exact ⟨hmark, rfl, by simp⟩

/-- Witness for the amended C1 theorem at a concrete input. -/
theorem C1_witness :
    (on_interaction [] "ab".toList ⟨["p".toList], "s".toList, false⟩
        (((["p".toList] : List (List Char)).length : Nat) : Int)
        (fun _ => GenOut.ok "x(終わり)".toList) true).session.finished = true ∧
    (on_interaction [] "ab".toList ⟨["p".toList], "s".toList, false⟩
        (((["p".toList] : List (List Char)).length : Nat) : Int)
        (fun _ => GenOut.ok "x(終わり)".toList) true).session.data
      = ["p".toList] ++ [trim_page_text "x(終わり)".toList] ∧
    (on_interaction [] "ab".toList ⟨["p".toList], "s".toList, false⟩
        (((["p".toList] : List (List Char)).length : Nat) : Int)
        (fun _ => GenOut.ok "x(終わり)".toList) true).session.data.length
      = ["p".toList].length + 1 :=
  C1_terminal_response_is_appended rfl (by decide) rfl (by decide)

/-- C2: the code contradicts the specified lock discipline.  If the
generator call raises on the frontier path, or if the `UPDATE` raises,
`novel_id` is left in the in-flight set forever (`in_page.remove` at
novel.py line 139 runs only on the success path; there is no
`try/finally`), and no `GenerationFailed`-style message is produced (the
exception escapes the handler).  The session row itself is unchanged. -/
theorem C2_lock_leak_on_failure :
    (on_interaction [] "ab".toList ⟨["p".toList], "s".toList, false⟩ 1
        (fun _ => GenOut.raise) true).locks = ["ab".toList] ∧
    (on_interaction [] "ab".toList ⟨["p".toList], "s".toList, false⟩ 1
        (fun _ => GenOut.raise) true).result = PageResult.raised ∧
    (on_interaction [] "ab".toList ⟨["p".toList], "s".toList, false⟩ 1
        (fun _ => GenOut.raise) true).session
      = ⟨["p".toList], "s".toList, false⟩ ∧
    (on_interaction [] "ab".toList ⟨["p".toList], "s".toList, false⟩ 1
        (fun _ => GenOut.ok "x".toList) false).locks = ["ab".toList] ∧
    (on_interaction [] "ab".toList ⟨["p".toList], "s".toList, false⟩ 1
        (fun _ => GenOut.ok "x".toList) false).result = PageResult.raised := by
  decide

/-- C3, counterexample to the claim as stated: `new_novel` evaluates
`"(終わり)" in text` on the already-trimmed text, so a generator output
ending in the completion marker (whose closing parenthesis the trim
removes) is persisted with `finished = false`; and the frontier path of
`on_interaction` tests the marker without its closing parenthesis, so a
text containing `"(終わり"` but never `"(終わり)"` is persisted with
`finished = true`. -/
theorem C3_counterexample :
    occursIn FULL_MARK "あ(終わり)".toList = true ∧
    (new_novel "s".toList "あ(終わり)".toList).finished = false ∧
    occursIn FULL_MARK "x(終わりy".toList = false ∧
    (on_interaction [] "i".toList ⟨["p".toList], "s".toList, false⟩ 1
        (fun _ => GenOut.ok "x(終わりy".toList) true).session.finished = true := by
  decide

/-- C3, amended: the persisted `finished` flag is computed from the
*trimmed* text, and the two paths use different markers: the frontier
path of `on_interaction` sets `finished = true` iff the trimmed text
contains the substring `"(終わり"` (closing parenthesis not required),
while `new_novel` sets it iff the trimmed text contains the full
`"(終わり)"` (which a marker sitting at the very end never satisfies,
since the trim strips its closing parenthesis). -/
theorem C3_finished_flag_characterization (story : List Char) {s : Session}
    {locks : List (List Char)} {novel_id : List Char}
    {gen : List (List Char × List Char) → GenOut} {raw : List Char}
    (hfin : s.finished = false) (hlock : locks.contains novel_id = false)
    (hgen : gen (buildContext s.story s.data) = GenOut.ok raw) :
    ((new_novel story raw).finished = true ↔
      ∃ u v, trim_page_text raw = u ++ FULL_MARK ++ v) ∧
    ((on_interaction locks novel_id s (s.data.length : Int) gen
        true).session.finished = true ↔
      ∃ u v, trim_page_text raw = u ++ PART_MARK ++ v) := by
  constructor
  · exact occursIn_iff FULL_MARK (trim_page_text raw)
  · rw [frontier_ok hfin hlock hgen]
    exact occursIn_iff PART_MARK (trim_page_text raw)

/-- Witness for the amended C3 theorem at a concrete input. -/
theorem C3_witness :
    (((new_novel "st".toList "x(終わりy".toList).finished = true ↔
      ∃ u v, trim_page_text "x(終わりy".toList = u ++ FULL_MARK ++ v) ∧
    ((on_interaction [] "i".toList ⟨["p".toList], "s".toList, false⟩
        (((["p".toList] : List (List Char)).length : Nat) : Int)
        (fun _ => GenOut.ok "x(終わりy".toList) true).session.finished = true ↔
      ∃ u v, trim_page_text "x(終わりy".toList = u ++ PART_MARK ++ v)) :=
  C3_finished_flag_characterization "st".toList rfl (by decide) rfl

/-- C4: once a session's `finished` flag is true, any sequence of further
`on_interaction` calls invokes the generator zero times and leaves the
session (pages and flag) and the lock set unchanged, and any requested
page at or beyond the stored count is answered with `outOfRange`. -/
theorem C4_finished_is_terminal {s : Session} (hf : s.finished = true)
    (locks : List (List Char)) (novel_id : List Char) :
    (∀ reqs, runReqs novel_id s locks reqs = (s, locks, 0)) ∧
    (∀ (page : Int) gen dbOk, (s.data.length : Int) ≤ page →
      (on_interaction locks novel_id s page gen dbOk).result
        = PageResult.outOfRange) := by
  constructor
  · intro reqs
    induction reqs with
    | nil => rfl
    | cons r rest ih =>
      obtain ⟨p, g, d⟩ := r
      simp only [runReqs]
      rw [step_finished hf locks novel_id p g d]
      simp only []
      rw [ih]
      rfl
  · intro page gen dbOk hpage
    rw [step_finished hf locks novel_id page gen dbOk]
    simp only []
    rw [if_pos hpage]

/-- Witness for the C4 theorem at a concrete input: a finished session
with one page, a frontier-shaped request and an out-of-range request. -/
theorem C4_witness :
    runReqs "i".toList ⟨["p".toList], "s".toList, true⟩ []
        [((1 : Int), fun _ => GenOut.ok "y".toList, true),
         ((0 : Int), fun _ => GenOut.raise, true)]
      = (⟨["p".toList], "s".toList, true⟩, [], 0) ∧
    (on_interaction [] "i".toList ⟨["p".toList], "s".toList, true⟩ 5
        (fun _ => GenOut.ok "y".toList) true).result
      = PageResult.outOfRange :=
  ⟨(C4_finished_is_terminal rfl [] "i".toList).1 _,
   (C4_finished_is_terminal rfl [] "i".toList).2 5 _ _ (by decide)⟩

/-- C5: for every string and every chunk bound of at least 1,
`split_by_chunk` returns pieces, in order, whose concatenation is exactly
the input, and every piece except possibly the last has length exactly
the bound. -/
theorem C5_chunk_round_trip (s : List Char) (m : Nat) (hm : 1 ≤ m) :
    (split_by_chunk s m).flatten = s ∧
    ∀ c ∈ (split_by_chunk s m).dropLast, c.length = m :=
  ⟨chunk_flatten hm s, chunk_dropLast hm s⟩

/-- Witness for the C5 theorem at a concrete input. -/
theorem C5_witness :
    (split_by_chunk "abcde".toList 2).flatten = "abcde".toList ∧
    ∀ c ∈ (split_by_chunk "abcde".toList 2).dropLast, c.length = 2 :=
  C5_chunk_round_trip "abcde".toList 2 (by decide)

/-- C6: on a frontier request (`page` equal to the stored count, session
not finished) whose generation succeeds and leaves the session still
unfinished, the displayed total page count in the response equals
`page + 1` exactly. -/
theorem C6_display_total_rule {s : Session} {locks : List (List Char)}
    {novel_id : List Char} {gen : List (List Char × List Char) → GenOut}
    {raw : List Char}
    (hfin : s.finished = false) (hlock : locks.contains novel_id = false)
    (hgen : gen (buildContext s.story s.data) = GenOut.ok raw)
    (hunfin : occursIn PART_MARK (trim_page_text raw) = false) :
    (on_interaction locks novel_id s (s.data.length : Int) gen true).result
      = PageResult.served (split_by_chunk (trim_page_text raw) 2048)
          ((s.data.length : Int) + 1) ((s.data.length : Int) + 1) false := by
  rw [frontier_ok hfin hlock hgen]
  show renderPage (s.data ++ [trim_page_text raw])
      (occursIn PART_MARK (trim_page_text raw)) (s.data.length : Int) = _
  rw [hunfin, renderPage_concat]

/-- Witness for the C6 theorem at a concrete input. -/
theorem C6_witness :
    (on_interaction [] "i".toList ⟨["p".toList], "s".toList, false⟩
        (((["p".toList] : List (List Char)).length : Nat) : Int)
        (fun _ => GenOut.ok "y".toList) true).result
      = PageResult.served (split_by_chunk (trim_page_text "y".toList) 2048)
          (((["p".toList] : List (List Char)).length : Int) + 1)
          (((["p".toList] : List (List Char)).length : Int) + 1) false :=
  C6_display_total_rule rfl (by decide) rfl (by decide)

/-- C7: for every premise and every non-empty page list, the replayed
context pairs the premise with the first stored page as its model turn,
then pairs the fixed continuation prompt with each subsequent stored
page, in storage order. -/
theorem C7_history_replay (story p0 : List Char) (rest : List (List Char)) :
    buildContext story (p0 :: rest)
      = (story, p0) :: rest.map (fun t => (CONT, t)) := by
  unfold buildContext
  rw [List.enum_cons]
  simp only [List.map_cons, if_pos rfl]
  rw [enumFrom_map_cont story rest 1 (by omega)]
  simp

/-- C8, counterexample to the claim as stated: `trim_page_text` does not
strip a trailing instance of the completion marker `"(終わり)"` as a
substring; `rstrip` only removes its closing parenthesis (the characters
`終`, `わ`, `り` are not in the strip set). -/
theorem C8_counterexample :
    trim_page_text "あ(終わり)".toList ≠ stripTokens "あ(終わり)".toList ∧
    trim_page_text "あ(終わり)".toList = "あ(終わり".toList ∧
    stripTokens "あ(終わり)".toList = "あ".toList := by
  decide

/-- C8, amended: the cleaned text equals the input with its maximal
trailing run of characters drawn from the fixed alphabet (the characters
of `"\n(次のページ)"`) removed — a suffix-run character trim, not
substring removal.  Consequently a trailing continuation token is removed
entirely, while a trailing completion marker `"(終わり)"` only loses its
closing parenthesis. -/
theorem C8_trailing_run_strip (t : List Char) :
    trim_page_text t ++ rstripDropped RSTRIP_CHARS t = t ∧
    (∀ c ∈ rstripDropped RSTRIP_CHARS t, RSTRIP_CHARS.contains c = true) ∧
    (∀ c : Char, (trim_page_text t).getLast? = some c →
      RSTRIP_CHARS.contains c = false) ∧
    trim_page_text (t ++ CONT_FULL) = trim_page_text t ∧
    trim_page_text (t ++ FULL_MARK) = t ++ PART_MARK :=
  ⟨rstrip_append_dropped RSTRIP_CHARS t,
   fun c hc => rstripDropped_mem c hc,
   fun _ hc => rstrip_last_not_mem hc,
   rstrip_append_run (by decide),
   trim_append_full_mark t⟩

/-- C9: when the per-session lock is already held and a frontier request
arrives (`page` equal to the stored count, session unfinished), the
handler answers `busy` with zero generator calls, zero database writes,
an unchanged session and an unchanged lock set. -/
theorem C9_busy_no_side_effects {s : Session} {locks : List (List Char)}
    {novel_id : List Char} {page : Int}
    {gen : List (List Char × List Char) → GenOut} {dbOk : Bool}
    (hpage : page = (s.data.length : Int)) (hfin : s.finished = false)
    (hlock : locks.contains novel_id = true) :
    on_interaction locks novel_id s page gen dbOk
      = ⟨s, locks, 0, 0, PageResult.busy⟩ :=
  frontier_busy hpage hfin hlock

/-- Witness for the C9 theorem at a concrete input. -/
theorem C9_witness :
    on_interaction ["ab".toList] "ab".toList ⟨["p".toList], "s".toList, false⟩
        1 (fun _ => GenOut.ok "y".toList) true
      = ⟨⟨["p".toList], "s".toList, false⟩, ["ab".toList], 0, 0,
          PageResult.busy⟩ :=
  C9_busy_no_side_effects (by decide) rfl (by decide)

/-- C10: a prev navigation event carrying current page 0 yields requested
page `-1`, and every negative requested page whose absolute value is at
most the stored count is served — Python-style — as the stored page that
many positions from the end, with no state change, no generator call and
never an out-of-range answer. -/
theorem C10_negative_page_serves_from_end {s : Session}
    {locks : List (List Char)} {novel_id : List Char}
    {gen : List (List Char × List Char) → GenOut} {dbOk : Bool} (k : Nat)
    (hk1 : 1 ≤ k) (hk2 : k ≤ s.data.length) :
    applyDirection "prev".toList 0 = -1 ∧
    on_interaction locks novel_id s (-(k : Int)) gen dbOk
      = ⟨s, locks, 0, 0,
          PageResult.served
            (split_by_chunk (s.data.getD (s.data.length - k) []) 2048)
            (-(k : Int) + 1) ((s.data.length : Int)) s.finished⟩ ∧
    (on_interaction locks novel_id s (-(k : Int)) gen dbOk).result
      ≠ PageResult.outOfRange := by
  have hstep : on_interaction locks novel_id s (-(k : Int)) gen dbOk
      = ⟨s, locks, 0, 0, renderPage s.data s.finished (-(k : Int))⟩ := by
    unfold on_interaction
    rw [if_neg (by rintro ⟨h1, _⟩; omega), if_neg (by omega)]
  refine ⟨by decide, ?_, ?_⟩
  · rw [hstep, renderPage_neg hk1 hk2]
  · rw [hstep, renderPage_neg hk1 hk2]
    simp

/-- Witness for the C10 theorem at a concrete input: two stored pages,
prev pressed at page 0, the last page is served. -/
theorem C10_witness :
    applyDirection "prev".toList 0 = -1 ∧
    on_interaction [] "i".toList
        ⟨["a".toList, "b".toList], "s".toList, false⟩ (-((1 : Nat) : Int))
        (fun _ => GenOut.ok "y".toList) true
      = ⟨⟨["a".toList, "b".toList], "s".toList, false⟩, [], 0, 0,
          PageResult.served
            (split_by_chunk
              ((["a".toList, "b".toList] : List (List Char)).getD
                ((["a".toList, "b".toList] : List (List Char)).length - 1) [])
              2048)
            (-((1 : Nat) : Int) + 1)
            (((["a".toList, "b".toList] : List (List Char)).length : Int))
            false⟩ ∧
    (on_interaction [] "i".toList
        ⟨["a".toList, "b".toList], "s".toList, false⟩ (-((1 : Nat) : Int))
        (fun _ => GenOut.ok "y".toList) true).result
      ≠ PageResult.outOfRange :=
  C10_negative_page_serves_from_end 1 (by decide) (by decide)

end Novelist
